import Mathlib

/-!
Skeleton-driven file organization engine: formal model.

Shallow embedding, in Lean 4, of the organize/package subsystem of the
repository (a React/TypeScript application).  The definitions below are
translated from:

* `src/hooks/useFileOperations.ts` — `parseStructureDefinition`,
  `simulateFileOperation`, `createPackage`;
* the `SmartOrganizeTab` component (`src/unnamed/part_002`) —
  `buildTargetStructure`, `autoAssignFiles` and the `StagedFile` /
  `TargetSlot` data model.

Modelling conventions:

* JavaScript numbers are modelled as `ℚ` (the values handled here are exact
  small decimals, so no floating-point rounding is relevant to any statement).
* `Math.random()` is modelled by an explicit stream `rand : Nat → ℚ` giving
  the value returned by the n-th call, threaded with a call counter.
* JavaScript string methods (`trim`, `trimStart`, `split`, `startsWith`,
  `endsWith`, `toLowerCase`, `includes`, `length`) are modelled by
  structurally recursive functions on the character list of a `String`
  (`js...` below); they agree with the JS methods on ASCII input (Unicode
  corner cases such as exotic whitespace characters, non-ASCII case mapping
  and surrogate-pair lengths are outside the model).
* The JS object reference stored in `slot.assignedFile` is modelled as the
  index of the file in the staged-files list; mutation of the shared file
  object is modelled by updating the list at that index.
* React state setters, timers, the operation log (`addOperation` /
  `updateOperation`) and DOM side effects are UI bookkeeping that no claim
  consults; progress callbacks are modelled as a collected event list.
-/

/-! ## JS string primitives -/

/-- Embedding of `s.trimStart()`. -/
def jsTrimStart (s : String) : String :=
  ⟨s.data.dropWhile Char.isWhitespace⟩

/-- Embedding of `s.trim()`. -/
def jsTrim (s : String) : String :=
  ⟨((s.data.dropWhile Char.isWhitespace).reverse.dropWhile
      Char.isWhitespace).reverse⟩

/-- Embedding of `s.length` (UTF-16 units in JS; code points here — identical on ASCII). -/
def jsLength (s : String) : Nat :=
  s.data.length

/-- Embedding of `s.startsWith(pat)`. -/
def jsStartsWith (s pat : String) : Bool :=
  pat.data.isPrefixOf s.data

/-- Embedding of `s.endsWith(pat)`. -/
def jsEndsWith (s pat : String) : Bool :=
  pat.data.reverse.isPrefixOf s.data.reverse

/-- Split a character list at every occurrence of `sep`
(the separator is dropped, empty pieces are kept, as in JS `split`). -/
def splitOnChar (sep : Char) : List Char → List (List Char)
  | [] => [[]]
  | c :: cs =>
    if c = sep then [] :: splitOnChar sep cs
    else
      match splitOnChar sep cs with
      | [] => [[c]]
      | l :: ls => (c :: l) :: ls

/-- Embedding of `s.split(sep)` for a one-character separator. -/
def jsSplit (s : String) (sep : Char) : List String :=
  (splitOnChar sep s.data).map String.mk

/-- Substring test on character lists (`[] ` matches everywhere, as in JS). -/
def listIsInfixOf (needle : List Char) : List Char → Bool
  | [] => needle.isEmpty
  | c :: cs => needle.isPrefixOf (c :: cs) || listIsInfixOf needle cs

/-- Embedding of `s.includes(pat)`. -/
def jsIncludes (s pat : String) : Bool :=
  listIsInfixOf pat.data s.data

/-- Embedding of `s.toLowerCase()` (ASCII case mapping). -/
def jsToLower (s : String) : String :=
  ⟨s.data.map Char.toLower⟩

/-- Embedding of `s.replace(/\/$/, '')`: strips one trailing `/` if present. -/
def stripTrailingSlash (s : String) : String :=
  if jsEndsWith s "/" then ⟨s.data.dropLast⟩ else s

/-! ## Data model and parser -/

/-- The `'file' | 'directory'` union used by both
`DirectoryStructureItem` and `TargetSlot` in the source. -/
inductive ItemType
  | file
  | directory
deriving DecidableEq

/-- Model of `DirectoryStructureItem` from `useFileOperations.ts`. -/
structure DirectoryStructureItem where
  path : String
  type : ItemType
  depth : Nat
  name : String
deriving DecidableEq

/-- The per-line body of `parseStructureDefinition`'s `forEach` loop: a line
either pushes one item or nothing, so the loop is a `filterMap`. -/
def parseLine (line : String) : Option DirectoryStructureItem :=
  let leadingSpaces := jsLength line - jsLength (jsTrimStart line)
  let depth := leadingSpaces / 2
  let name := jsTrim line
  let isDirectory := jsEndsWith name "/"
  let cleanName := stripTrailingSlash name
  if !cleanName.isEmpty then
    some { path := cleanName
           type := if isDirectory then ItemType.directory else ItemType.file
           depth := depth
           name := cleanName }
  else none

/-- Model of `parseStructureDefinition` from `useFileOperations.ts` (lines 49–71):
split on newlines, keep lines that are nonempty after trimming and whose
trimmed form does not start with `#`, then build one item per kept line
(except that a line whose token is empty after stripping the trailing `/`
is silently dropped by the `if (cleanName)` guard). -/
def parseStructureDefinition (definition : String) : List DirectoryStructureItem :=
  ((jsSplit definition '\n').filter
      (fun line => !(jsTrim line).isEmpty && !jsStartsWith (jsTrim line) "#")).filterMap
    parseLine

/-- The node a kept line is mapped to, following the words of the spec
(§4.1) and of claim C7: depth is `floor(leading whitespace / 2)`, the kind is
`Directory` exactly when the trimmed token ends with `/`, and the stored
path/name is the trimmed token with that trailing separator stripped. -/
def specNode (line : String) : DirectoryStructureItem :=
  { path := stripTrailingSlash (jsTrim line)
    type := if jsEndsWith (jsTrim line) "/" then ItemType.directory else ItemType.file
    depth := (jsLength line - jsLength (jsTrimStart line)) / 2
    name := stripTrailingSlash (jsTrim line) }

/-- The parser as described by claim C7, word for word: discard exactly the
blank-after-trim lines and the `#`-comment lines, and map every remaining
line to its node. -/
def specParseClaim (definition : String) : List DirectoryStructureItem :=
  ((jsSplit definition '\n').filter
      (fun line => !(jsTrim line).isEmpty && !jsStartsWith (jsTrim line) "#")).map
    specNode

/-- The parser as described by claim C7 amended by the counterexample: a
line whose trimmed token becomes empty once the trailing separator is
stripped (a bare `/`) is also discarded. -/
def specParseAmended (definition : String) : List DirectoryStructureItem :=
  ((jsSplit definition '\n').filter
      (fun line => (!(jsTrim line).isEmpty && !jsStartsWith (jsTrim line) "#")
        && !(stripTrailingSlash (jsTrim line)).isEmpty)).map
    specNode

/-! ## SmartOrganizeTab: staged files, target slots, skeleton build,
auto-assignment (`src/unnamed/part_002`) -/

/-- The `'staged' | 'assigned' | 'organized'` union of `StagedFile.status`. -/
inductive FileStatus
  | staged
  | assigned
  | organized
deriving DecidableEq

/-- The `'empty' | 'assigned' | 'auto-matched'` union of `TargetSlot.status`. -/
inductive SlotStatus
  | empty
  | assigned
  | autoMatched
deriving DecidableEq

/-- Model of `StagedFile` from the `SmartOrganizeTab` component. -/
structure StagedFile where
  id : String
  name : String
  path : String
  size : Nat
  type : String
  status : FileStatus
  targetPath : Option String := none
deriving DecidableEq

/-- Model of `TargetSlot` from the `SmartOrganizeTab` component.  `assignedFile`
holds the index of the referenced file in the staged-files list (the JS
field holds an object reference into that array). -/
structure TargetSlot where
  id : String
  path : String
  type : ItemType
  assignedFile : Option Nat := none
  status : SlotStatus
  confidence : Option ℚ := none
deriving DecidableEq

/-- The `forEach` loop body of `buildTargetStructure`, with the running line
index `i` made explicit: a kept non-directory line pushes one slot whose id
is `"slot_" ++ i`. -/
def buildSlots : Nat → List String → List TargetSlot
  | _, [] => []
  | i, line :: rest =>
    let trimmed := jsTrim line
    if !trimmed.isEmpty && !jsStartsWith trimmed "#" then
      if !jsEndsWith trimmed "/" then
        { id := "slot_" ++ toString i
          path := stripTrailingSlash trimmed
          type := ItemType.file
          assignedFile := none
          status := SlotStatus.empty
          confidence := none } :: buildSlots (i + 1) rest
      else buildSlots (i + 1) rest
    else buildSlots (i + 1) rest

/-- Model of `buildTargetStructure` (`src/unnamed/part_002`, lines 526–558): filter
the definition's lines to the non-blank ones, then create one `empty` slot
per non-comment, non-directory line, with the positional id `slot_<index>`
(`index` is the line's position among the non-blank lines). -/
def buildTargetStructure (text : String) : List TargetSlot :=
  buildSlots 0 ((jsSplit text '\n').filter (fun line => !(jsTrim line).isEmpty))

/-- The slot an enumerated kept line is mapped to under the amended claim
C3: a non-comment, non-directory line at position `i` among the non-blank
lines yields an empty slot with the positional id `"slot_" ++ i`. -/
def specBuildLine (p : Nat × String) : Option TargetSlot :=
  if !(jsTrim p.2).isEmpty && !jsStartsWith (jsTrim p.2) "#"
      && !jsEndsWith (jsTrim p.2) "/" then
    some { id := "slot_" ++ toString p.1
           path := stripTrailingSlash (jsTrim p.2)
           type := ItemType.file
           assignedFile := none
           status := SlotStatus.empty
           confidence := none }
  else none

/-- The skeleton builder as described by claim C3 amended: slot ids are
positional — the slot of a kept line carries id `"slot_" ++ <index of the
line among the non-blank lines>` — written with an explicit enumeration, as
the amended claim words it. -/
def specBuildPositional (text : String) : List TargetSlot :=
  (((jsSplit text '\n').filter (fun line => !(jsTrim line).isEmpty)).enum).filterMap
    specBuildLine

/-- Embedding of `slot.path.split('.').pop()?.toLowerCase()` and the `|| ''`
fallback: the lower-cased last dot-separated segment of the path. -/
def extOf (path : String) : String :=
  jsToLower (((jsSplit path '.').getLast?).getD "")

/-- The `updatedFiles.find(...)` call of `autoAssignFiles`: the first file
(with its index) whose status is `staged` and whose lower-cased name
contains the slot's extension. -/
def findStagedMatch (needle : String) : List StagedFile → Option (Nat × StagedFile)
  | [] => none
  | f :: fs =>
    if f.status = FileStatus.staged && jsIncludes (jsToLower f.name) needle then
      some (0, f)
    else (findStagedMatch needle fs).map (fun p => (p.1 + 1, p.2))

/-- In-place mutation of the matched file object
(`matchingFile.status = 'assigned'; matchingFile.targetPath = slot.path`),
modelled as an update of the staged-files list at the matched index. -/
def setFileAssigned : List StagedFile → Nat → String → List StagedFile
  | [], _, _ => []
  | f :: fs, 0, tpath =>
    { f with status := FileStatus.assigned, targetPath := some tpath } :: fs
  | f :: fs, j + 1, tpath => f :: setFileAssigned fs j tpath

/-- Result of an `autoAssignFiles` pass: the updated slots and files, and
the number of `Math.random()` calls made (one per assignment). -/
structure AutoResult where
  slots : List TargetSlot
  files : List StagedFile
  draws : Nat
deriving DecidableEq

/-- Model of `autoAssignFiles` (`src/unnamed/part_002`, lines 560–618): walk the
slots in order; for each `empty` slot, find the first staged file whose
lower-cased name contains the slot path's extension; on a match, set the
slot to `auto-matched` with `confidence = 75 + Math.random() * 20` and mark
the file `assigned` with the slot's path as target.  `rand k` is the value
returned by the k-th `Math.random()` call. -/
def autoAssignFiles (rand : Nat → ℚ) :
    List TargetSlot → List StagedFile → Nat → AutoResult
  | [], files, k => ⟨[], files, k⟩
  | slot :: rest, files, k =>
    if slot.status = SlotStatus.empty then
      match findStagedMatch (extOf slot.path) files with
      | some (j, _) =>
        let slot' := { slot with
          assignedFile := some j
          status := SlotStatus.autoMatched
          confidence := some (75 + rand k * 20) }
        let r := autoAssignFiles rand rest (setFileAssigned files j slot.path) (k + 1)
        ⟨slot' :: r.slots, r.files, r.draws⟩
      | none =>
        let r := autoAssignFiles rand rest files k
        ⟨slot :: r.slots, r.files, r.draws⟩
    else
      let r := autoAssignFiles rand rest files k
      ⟨slot :: r.slots, r.files, r.draws⟩

/-- Erase the confidence of a slot (used to compare the slot/file pairing of
two matching passes independently of the random confidence values). -/
def stripConf (s : TargetSlot) : TargetSlot :=
  { s with confidence := none }

/-- Scenario B fixture: an empty slot for the target path `invoice.pdf`. -/
def invoiceSlot : TargetSlot :=
  ⟨"slot_0", "invoice.pdf", ItemType.file, none, SlotStatus.empty, none⟩

/-- Scenario B fixture: a staged pool file named `invoice_final.pdf`. -/
def invoiceFile : StagedFile :=
  ⟨"f1", "invoice_final.pdf", "/files/invoice_final.pdf", 100,
    "application/pdf", FileStatus.staged, none⟩

/-! ## Assignment-exclusivity invariant (claim C4) -/

/-- Whether the file at index `j` of the pool currently has status
`staged`. -/
def stagedAt (files : List StagedFile) (j : Nat) : Bool :=
  match files[j]? with
  | some f => f.status == FileStatus.staged
  | none => false

/-- A slot's file reference is healthy: if the slot references a file, that
index exists in the pool and the referenced file is no longer `staged`
(the code marks a file `assigned` in the same step that links it). -/
def refOkSlot (files : List StagedFile) (s : TargetSlot) : Bool :=
  match s.assignedFile with
  | none => true
  | some j =>
    match files[j]? with
    | some f => !(f.status == FileStatus.staged)
    | none => false

/-- All slots have healthy file references. -/
def refsOk (slots : List TargetSlot) (files : List StagedFile) : Bool :=
  slots.all (fun s => refOkSlot files s)

/-- Two slots do not reference the same file object. -/
def noShareB (s t : TargetSlot) : Bool :=
  s.assignedFile.isNone || s.assignedFile != t.assignedFile

/-- Assignment exclusivity by reference: no two slots in the list reference
the same file. -/
def pairwiseNoShare : List TargetSlot → Bool
  | [] => true
  | s :: rest => rest.all (fun t => noShareB s t) && pairwiseNoShare rest

/-- The id of the file a slot references, if any. -/
def assignedId (files : List StagedFile) (s : TargetSlot) : Option String :=
  match s.assignedFile with
  | none => none
  | some j =>
    match files[j]? with
    | some f => some f.id
    | none => none

/-- Two slots do not reference files with the same id. -/
def noShareIdB (files : List StagedFile) (s t : TargetSlot) : Bool :=
  (assignedId files s).isNone || (assignedId files s != assignedId files t)

/-- Assignment exclusivity by `SourceFile.id`: a given file id appears as
the `assignedFile` of at most one slot. -/
def pairwiseNoShareId (files : List StagedFile) : List TargetSlot → Bool
  | [] => true
  | s :: rest =>
    rest.all (fun t => noShareIdB files s t) && pairwiseNoShareId files rest

/-- Witness fixture for C4: two empty slots. -/
def exclSlots : List TargetSlot :=
  [⟨"slot_0", "a.txt", ItemType.file, none, SlotStatus.empty, none⟩,
   ⟨"slot_1", "b.txt", ItemType.file, none, SlotStatus.empty, none⟩]

/-- Witness fixture for C4: two staged files with distinct ids, each
matching both slots' extension. -/
def exclFiles : List StagedFile :=
  [⟨"1", "x.txt", "/files/x.txt", 10, "text/plain", FileStatus.staged, none⟩,
   ⟨"2", "y.txt", "/files/y.txt", 20, "text/plain", FileStatus.staged, none⟩]

/-! ## Batch executor and archiver (`useFileOperations.ts`) -/

/-- Model of `FileItem` from `useFileOperations.ts`. -/
structure FileItem where
  id : String
  name : String
  path : String
  size : Nat
  type : String
  modified : String
  isDirectory : Option Bool := none
deriving DecidableEq

/-- One element of the `assignments` array passed to `organizeFiles` /
`createPackage`: `{ source: FileItem; target: string }`. -/
structure Assignment where
  source : FileItem
  target : String
deriving DecidableEq

/-- The value returned by `simulateFileOperation` on its success path
(`{ success: true, processedCount: items.length }`), together with the
progress events delivered to the `onProgress` callback.  The `catch` branch
(`{ success: false, error }`) is unreachable in the model: the loop body
only awaits a timer and invokes the progress callback, neither of which
throws; the operation-log bookkeeping (`addOperation` / `updateOperation`)
is omitted as no claim consults it. -/
structure SimResult where
  success : Bool
  processedCount : Nat
  events : List (ℚ × String)
deriving DecidableEq

/-- The progress events fired by `simulateFileOperation`'s loop:
`onProgress(((i + 1) / items.length) * 100, "Processing i+1/N: <label>")`,
where `<label>` is `items[i].name || items[i].path || 'item'` (passed in as
`label` since the JS property lookup is dynamic). -/
def progressEvents {α : Type} (label : α → String) (total : Nat) :
    Nat → List α → List (ℚ × String)
  | _, [] => []
  | i, x :: xs =>
    (((i : ℚ) + 1) / (total : ℚ) * 100,
      "Processing " ++ toString (i + 1) ++ "/" ++ toString total ++ ": "
        ++ label x)
      :: progressEvents label total (i + 1) xs

/-- Model of `simulateFileOperation` from `useFileOperations.ts` (lines 73–111):
iterate over all items in order, firing one progress event per item, and
return `{ success: true, processedCount: items.length }`.  There is no
per-item fault handling because no per-item operation can fail — the
"processing" is a timer. -/
def simulateFileOperation {α : Type} (label : α → String) (items : List α) :
    SimResult :=
  { success := true
    processedCount := items.length
    events := progressEvents label items.length 0 items }

/-- Embedding of `items[i].name || items[i].path || 'item'` for a `FileItem`. -/
def jsNameOrPath (f : FileItem) : String :=
  if !f.name.isEmpty then f.name
  else if !f.path.isEmpty then f.path
  else "item"

/-- A batch item together with the environment fact claim C8 quantifies
over: whether its source is readable.  `simulateFileOperation` performs no
reads, so the flag is never consulted by the code. -/
structure EnvItem where
  file : FileItem
  sourceReadable : Bool
deriving DecidableEq

/-- The progress label of an `EnvItem` (the dynamic
`name || path || 'item'` lookup on its file). -/
def envLabel (e : EnvItem) : String :=
  jsNameOrPath e.file

/-- The progress label of an `Assignment` record: it has no `name` or
`path` JS property, so `items[i].name || items[i].path || 'item'`
evaluates to `'item'`. -/
def assignmentLabel (_ : Assignment) : String :=
  "item"

/-- The constant blob written by `createPackage`
(`new Blob(['# Package Contents\n\nThis is a simulated package file.'])`). -/
def packageContents : String :=
  "# Package Contents\n\nThis is a simulated package file."

/-- Model of `createPackage` from `useFileOperations.ts` (lines 139–161): run
`simulateFileOperation` over the assignments; on success, trigger the
download of a file named `packageName ++ ".zip"` whose content is the
constant `packageContents` string.  The download side effect is modelled as
the second component (file name and blob content). -/
def createPackage (assignments : List Assignment) (packageName : String) :
    SimResult × Option (String × String) :=
  let result := simulateFileOperation assignmentLabel assignments
  (result,
    if result.success then some (packageName ++ ".zip", packageContents)
    else none)

theorem parseLine_eq (line : String) :
    parseLine line =
      if !(stripTrailingSlash (jsTrim line)).isEmpty then some (specNode line)
      else none := by
  simp [parseLine, specNode]

theorem parse_filterMap_aux (ls : List String) :
    ls.filterMap parseLine
      = (ls.filter
          (fun line => !(stripTrailingSlash (jsTrim line)).isEmpty)).map
          specNode := by
  induction ls with
  | nil => rfl
  | cons l ls ih =>
    by_cases h : (stripTrailingSlash (jsTrim l)).isEmpty = true
    · simp [List.filterMap_cons, List.filter_cons, parseLine_eq, h, ih]
    · simp [List.filterMap_cons, List.filter_cons, parseLine_eq, h, ih]

/-- C7 (amended): for every input text, the parser equals the spec-words
description amended to also drop bare-`/` lines. -/
theorem parser_spec_amended (definition : String) :
    parseStructureDefinition definition = specParseAmended definition := by
  unfold parseStructureDefinition specParseAmended
  rw [parse_filterMap_aux, List.filter_filter]
  congr 1
  refine List.filter_congr (fun x _ => ?_)
  cases h1 : (stripTrailingSlash (jsTrim x)).isEmpty <;>
    cases h2 : (jsTrim x).isEmpty <;>
      cases h3 : jsStartsWith (jsTrim x) "#" <;> simp [h1, h2, h3]

/-- C7 (counterexample): on the input `"/"` the parser yields no node, while
the claim's description yields one (an empty-named directory node): the line
`"/"` is neither blank after trimming nor a comment, yet it is discarded. -/
theorem parser_slash_line_cex :
    parseStructureDefinition "/" = []
      ∧ specParseClaim "/" = [⟨"", ItemType.directory, 0, ""⟩]
      ∧ parseStructureDefinition "/" ≠ specParseClaim "/" := by
  refine ⟨by decide, by decide, by decide⟩

/-- C10: every node produced by the parser has `name = path` (both are the
trimmed token with the trailing separator stripped). -/
theorem parse_name_eq_path (definition : String)
    (item : DirectoryStructureItem)
    (h : item ∈ parseStructureDefinition definition) :
    item.name = item.path := by
  unfold parseStructureDefinition at h
  rcases List.mem_filterMap.mp h with ⟨line, _, hline⟩
  rw [parseLine_eq] at hline
  by_cases hc : (stripTrailingSlash (jsTrim line)).isEmpty = true
  · simp [hc] at hline
  · simp [hc] at hline
    subst hline
    rfl

/-- Witness for C10 at the concrete input `"docs/\n  report.pdf"`. -/
theorem parse_name_eq_path_witness :
    (⟨"report.pdf", ItemType.file, 1, "report.pdf"⟩ : DirectoryStructureItem)
      ∈ parseStructureDefinition "docs/\n  report.pdf"
    ∧ (⟨"report.pdf", ItemType.file, 1, "report.pdf"⟩ :
        DirectoryStructureItem).name
      = (⟨"report.pdf", ItemType.file, 1, "report.pdf"⟩ :
        DirectoryStructureItem).path := by
  have hmem :
      (⟨"report.pdf", ItemType.file, 1, "report.pdf"⟩ : DirectoryStructureItem)
        ∈ parseStructureDefinition "docs/\n  report.pdf" := by decide
  exact ⟨hmem, parse_name_eq_path "docs/\n  report.pdf" _ hmem⟩

theorem autoAssignFiles_nil (rand : Nat → ℚ) (files : List StagedFile)
    (k : Nat) : autoAssignFiles rand [] files k = ⟨[], files, k⟩ := rfl

theorem autoAssignFiles_cons_skip (rand : Nat → ℚ) (slot : TargetSlot)
    (rest : List TargetSlot) (files : List StagedFile) (k : Nat)
    (h : slot.status ≠ SlotStatus.empty) :
    autoAssignFiles rand (slot :: rest) files k =
      ⟨slot :: (autoAssignFiles rand rest files k).slots,
        (autoAssignFiles rand rest files k).files,
        (autoAssignFiles rand rest files k).draws⟩ := by
  rw [autoAssignFiles, if_neg h]

theorem autoAssignFiles_cons_none (rand : Nat → ℚ) (slot : TargetSlot)
    (rest : List TargetSlot) (files : List StagedFile) (k : Nat)
    (h : slot.status = SlotStatus.empty)
    (hfind : findStagedMatch (extOf slot.path) files = none) :
    autoAssignFiles rand (slot :: rest) files k =
      ⟨slot :: (autoAssignFiles rand rest files k).slots,
        (autoAssignFiles rand rest files k).files,
        (autoAssignFiles rand rest files k).draws⟩ := by
  rw [autoAssignFiles, if_pos h, hfind]

theorem autoAssignFiles_cons_some (rand : Nat → ℚ) (slot : TargetSlot)
    (rest : List TargetSlot) (files : List StagedFile) (k j : Nat)
    (f : StagedFile) (h : slot.status = SlotStatus.empty)
    (hfind : findStagedMatch (extOf slot.path) files = some (j, f)) :
    autoAssignFiles rand (slot :: rest) files k =
      ⟨{ slot with
          assignedFile := some j
          status := SlotStatus.autoMatched
          confidence := some (75 + rand k * 20) }
        :: (autoAssignFiles rand rest (setFileAssigned files j slot.path)
              (k + 1)).slots,
        (autoAssignFiles rand rest (setFileAssigned files j slot.path)
          (k + 1)).files,
        (autoAssignFiles rand rest (setFileAssigned files j slot.path)
          (k + 1)).draws⟩ := by
  rw [autoAssignFiles, if_pos h, hfind]

theorem buildSlots_eq_enumFrom (ls : List String) :
    ∀ i, buildSlots i ls = (ls.enumFrom i).filterMap specBuildLine := by
  induction ls with
  | nil => intro i; rfl
  | cons l ls ih =>
    intro i
    rw [List.enumFrom_cons, List.filterMap_cons]
    by_cases h1 : (jsTrim l).isEmpty = true <;>
      by_cases h2 : jsStartsWith (jsTrim l) "#" = true <;>
        by_cases h3 : jsEndsWith (jsTrim l) "/" = true <;>
          simp [buildSlots, specBuildLine, h1, h2, h3, ih]

/-- C3 (amended): for every definition text, the skeleton builder yields
exactly the positional-id slots: one `empty` slot per kept non-directory
line, with id `"slot_" ++ <index of the line among the non-blank lines>` —
so rebuilding from an identical definition text yields identical ids, but
the id is a function of the line position, not of the path. -/
theorem buildTargetStructure_positional_ids (text : String) :
    buildTargetStructure text = specBuildPositional text := by
  unfold buildTargetStructure specBuildPositional
  rw [buildSlots_eq_enumFrom]
  rfl

/-- C3 (counterexample): the definitions `"report.pdf"` and
`"# note\nreport.pdf"` contain exactly the same file paths, yet the slot
built for the path `report.pdf` has id `slot_0` in the first skeleton and
`slot_1` in the second: the id is not derived from the path. -/
theorem slot_id_not_path_hash_cex :
    ((buildTargetStructure "report.pdf").map TargetSlot.path
        = (buildTargetStructure "# note\nreport.pdf").map TargetSlot.path)
      ∧ ((buildTargetStructure "report.pdf").map TargetSlot.id
        = ["slot_0"])
      ∧ ((buildTargetStructure "# note\nreport.pdf").map TargetSlot.id
        = ["slot_1"]) := by
  refine ⟨by decide, by decide, by decide⟩

/-- C6: the definition `"docs/\n  report.pdf"` parses to exactly the two
nodes `{path := "docs", kind := directory, depth := 0}` and
`{path := "report.pdf", kind := file, depth := 1}`, and building the
skeleton from that definition creates exactly one slot, for `report.pdf`. -/
theorem scenarioA_parse_build :
    parseStructureDefinition "docs/\n  report.pdf"
      = [⟨"docs", ItemType.directory, 0, "docs"⟩,
         ⟨"report.pdf", ItemType.file, 1, "report.pdf"⟩]
      ∧ (buildTargetStructure "docs/\n  report.pdf").map TargetSlot.path
        = ["report.pdf"] := by
  refine ⟨by decide, by decide⟩

/-- C5: an auto-assignment pass only mutates `empty` slots — a slot whose
status is `assigned` or `auto-matched` before the pass is returned
unchanged (same status, same assigned file, same confidence). -/
theorem autoAssign_frame_nonempty (rand : Nat → ℚ) (slots : List TargetSlot)
    (files : List StagedFile) (k i : Nat) (s : TargetSlot)
    (hs : slots[i]? = some s) (hstatus : s.status ≠ SlotStatus.empty) :
    (autoAssignFiles rand slots files k).slots[i]? = some s := by
  induction slots generalizing files k i with
  | nil => simp at hs
  | cons slot rest ih =>
    cases i with
    | zero =>
      simp only [List.getElem?_cons_zero, Option.some.injEq] at hs
      subst hs
      rw [autoAssignFiles_cons_skip rand slot rest files k hstatus]
      simp
    | succ n =>
      simp only [List.getElem?_cons_succ] at hs
      by_cases hempty : slot.status = SlotStatus.empty
      · cases hfind : findStagedMatch (extOf slot.path) files with
        | none =>
          rw [autoAssignFiles_cons_none rand slot rest files k hempty hfind]
          simpa using ih _ _ _ hs
        | some p =>
          obtain ⟨j, f⟩ := p
          rw [autoAssignFiles_cons_some rand slot rest files k j f hempty hfind]
          simpa using ih _ _ _ hs
      · rw [autoAssignFiles_cons_skip rand slot rest files k hempty]
        simpa using ih _ _ _ hs

/-- Witness for C5: a pre-assigned slot survives a pass over a pool
containing a staged file that would otherwise match it. -/
theorem autoAssign_frame_nonempty_witness :
    ([(⟨"slot_0", "invoice.pdf", ItemType.file, some 0, SlotStatus.assigned,
        none⟩ : TargetSlot)][0]?
      = some (⟨"slot_0", "invoice.pdf", ItemType.file, some 0,
        SlotStatus.assigned, none⟩ : TargetSlot))
    ∧ (autoAssignFiles (fun _ => 0)
        [⟨"slot_0", "invoice.pdf", ItemType.file, some 0,
          SlotStatus.assigned, none⟩]
        [invoiceFile] 0).slots[0]?
      = some (⟨"slot_0", "invoice.pdf", ItemType.file, some 0,
        SlotStatus.assigned, none⟩ : TargetSlot) := by
  refine ⟨by decide, ?_⟩
  exact autoAssign_frame_nonempty (fun _ => 0) _ [invoiceFile] 0 0 _
    (by decide) (by decide)

/-- C1 (amended): the slot/file pairing produced by an auto-assignment pass
is independent of the random draws — two passes over the same slots and
files propose the same `(slot, file)` pairs with the same statuses and the
same updated file pool, whatever `Math.random()` returns; only the
confidence values depend on the draws. -/
theorem autoAssign_pairs_deterministic (r1 r2 : Nat → ℚ)
    (slots : List TargetSlot) (files : List StagedFile) (k1 k2 : Nat) :
    ((autoAssignFiles r1 slots files k1).slots.map stripConf
        = (autoAssignFiles r2 slots files k2).slots.map stripConf)
      ∧ (autoAssignFiles r1 slots files k1).files
        = (autoAssignFiles r2 slots files k2).files := by
  induction slots generalizing files k1 k2 with
  | nil => exact ⟨rfl, rfl⟩
  | cons slot rest ih =>
    by_cases hempty : slot.status = SlotStatus.empty
    · cases hfind : findStagedMatch (extOf slot.path) files with
      | none =>
        rw [autoAssignFiles_cons_none r1 slot rest files k1 hempty hfind,
          autoAssignFiles_cons_none r2 slot rest files k2 hempty hfind]
        obtain ⟨hslots, hfiles⟩ := ih files k1 k2
        simpa [hslots] using hfiles
      | some p =>
        obtain ⟨j, f⟩ := p
        rw [autoAssignFiles_cons_some r1 slot rest files k1 j f hempty hfind,
          autoAssignFiles_cons_some r2 slot rest files k2 j f hempty hfind]
        obtain ⟨hslots, hfiles⟩ :=
          ih (setFileAssigned files j slot.path) (k1 + 1) (k2 + 1)
        simp only [List.map_cons]
        refine ⟨?_, hfiles⟩
        rw [hslots]
        simp [stripConf]
    · rw [autoAssignFiles_cons_skip r1 slot rest files k1 hempty,
        autoAssignFiles_cons_skip r2 slot rest files k2 hempty]
      obtain ⟨hslots, hfiles⟩ := ih files k1 k2
      simpa [hslots] using hfiles

/-- C1 (counterexample): with the same slot set and pool, two runs of the
auto-match pass whose `Math.random()` draws are `0` and `1/2` (both valid
draws in `[0, 1)`) return different results — the proposed confidences are
`75` and `85`. -/
theorem autoAssign_not_deterministic_cex :
    ((0:ℚ) ≤ 0 ∧ (0:ℚ) < 1 ∧ (0:ℚ) ≤ 1/2 ∧ (1/2:ℚ) < 1)
      ∧ autoAssignFiles (fun _ => 0) [invoiceSlot] [invoiceFile] 0
        ≠ autoAssignFiles (fun _ => (1:ℚ)/2) [invoiceSlot] [invoiceFile] 0 := by
  refine ⟨by norm_num, ?_⟩
  intro heq
  have hc := congrArg (fun r => r.slots.map TargetSlot.confidence) heq
  have h1 : (autoAssignFiles (fun _ => 0) [invoiceSlot] [invoiceFile] 0).slots.map
      TargetSlot.confidence = [some (75 + 0 * 20)] := rfl
  have h2 : (autoAssignFiles (fun _ => (1:ℚ)/2) [invoiceSlot]
      [invoiceFile] 0).slots.map
      TargetSlot.confidence = [some (75 + 1/2 * 20)] := rfl
  simp only [h1, h2] at hc
  norm_num at hc

/-- C2 (amended): in Scenario B — slot path `invoice.pdf`, pool file
`invoice_final.pdf` — the slot is auto-matched to that file, because the
lower-cased file name contains the slot path's extension `pdf` (no fuzzy
name similarity is computed); the recorded confidence is
`75 + 20 * r` where `r` is the `Math.random()` draw, so it lies in the
percent range `[75, 95)`, not in `[0, 1]`. -/
theorem autoAssign_invoice_confidence (rand : Nat → ℚ)
    (h0 : 0 ≤ rand 0) (h1 : rand 0 < 1) :
    ((autoAssignFiles rand [invoiceSlot] [invoiceFile] 0).slots.map
        TargetSlot.assignedFile = [some 0])
      ∧ ((autoAssignFiles rand [invoiceSlot] [invoiceFile] 0).slots.map
        TargetSlot.status = [SlotStatus.autoMatched])
      ∧ ((autoAssignFiles rand [invoiceSlot] [invoiceFile] 0).slots.map
        TargetSlot.confidence = [some (75 + rand 0 * 20)])
      ∧ ((autoAssignFiles rand [invoiceSlot] [invoiceFile] 0).files.map
        StagedFile.status = [FileStatus.assigned])
      ∧ 75 ≤ 75 + rand 0 * 20 ∧ 75 + rand 0 * 20 < 95 := by
  refine ⟨rfl, rfl, rfl, rfl, ?_, ?_⟩
  · nlinarith
  · nlinarith

/-- Witness for C2 (amended) at the concrete draw `0`. -/
theorem autoAssign_invoice_confidence_witness :
    (0:ℚ) ≤ 0 ∧ (0:ℚ) < 1
      ∧ (((autoAssignFiles (fun _ => 0) [invoiceSlot] [invoiceFile] 0).slots.map
          TargetSlot.confidence = [some (75 + 0 * 20)])
        ∧ (75:ℚ) ≤ 75 + 0 * 20 ∧ (75:ℚ) + 0 * 20 < 95) := by
  refine ⟨le_refl 0, by norm_num, ?_⟩
  have h := autoAssign_invoice_confidence (fun _ => 0) (le_refl 0) (by norm_num)
  exact ⟨h.2.2.1, h.2.2.2.2.1, h.2.2.2.2.2⟩

/-- C2 (counterexample): in Scenario B with draw `0` the recorded confidence
is `75`, which is neither `0.5 + 0.5 * 0.82 = 0.91` nor in `[0, 1]`. -/
theorem autoAssign_confidence_scale_cex :
    ((autoAssignFiles (fun _ => 0) [invoiceSlot] [invoiceFile] 0).slots.map
        TargetSlot.confidence = [some 75])
      ∧ ¬((75:ℚ) ≤ 1) ∧ (75:ℚ) ≠ 1/2 + 1/2 * (82/100) := by
  refine ⟨?_, by norm_num, by norm_num⟩
  have h : (autoAssignFiles (fun _ => 0) [invoiceSlot] [invoiceFile] 0).slots.map
      TargetSlot.confidence = [some (75 + 0 * 20)] := rfl
  rw [h]
  norm_num

theorem progressEvents_readable_invariant (total : Nat) (r : EnvItem → Bool) :
    ∀ (i : Nat) (items : List EnvItem),
      progressEvents envLabel total i
          (items.map (fun e => { e with sourceReadable := r e }))
        = progressEvents envLabel total i items := by
  intro i items
  induction items generalizing i with
  | nil => rfl
  | cons x xs ih => simp [progressEvents, envLabel, ih]

/-- C8 (amended): the executor contains no per-item fault path at all — for
every batch it processes all N items, fires all N progress events, and
returns `{ success: true, processedCount: N }`; the result carries no
succeeded/failed lists and is identical whether or not any item's source is
readable (the code never reads sources), and no exception reaches the
caller. -/
theorem simulate_total_success (items : List EnvItem) (r : EnvItem → Bool) :
    (simulateFileOperation envLabel items).success = true
      ∧ (simulateFileOperation envLabel items).processedCount = items.length
      ∧ (simulateFileOperation envLabel items).events.length = items.length
      ∧ simulateFileOperation envLabel
          (items.map (fun e => { e with sourceReadable := r e }))
        = simulateFileOperation envLabel items := by
  have hlen : ∀ (total i : Nat) (xs : List EnvItem),
      (progressEvents envLabel total i xs).length = xs.length := by
    intro total i xs
    induction xs generalizing i with
    | nil => rfl
    | cons x xs ih => simp [progressEvents, ih]
  refine ⟨rfl, rfl, hlen _ _ _, ?_⟩
  unfold simulateFileOperation
  rw [List.length_map, progressEvents_readable_invariant]

/-- C8 (counterexample): a 2-item batch whose second item's source is
unreadable is processed exactly like the same batch with both sources
readable — the returned result is `success = true` with
`processedCount = 2`, not a structured result with one success and one
recorded failure. -/
theorem simulate_no_partial_failure_cex :
    (simulateFileOperation envLabel
        [⟨⟨"1", "a.txt", "/files/a.txt", 10, "text/plain", "2024-01-01",
            none⟩, true⟩,
         ⟨⟨"2", "b.txt", "/files/b.txt", 10, "text/plain", "2024-01-01",
            none⟩, false⟩]).success = true
      ∧ (simulateFileOperation envLabel
          [⟨⟨"1", "a.txt", "/files/a.txt", 10, "text/plain", "2024-01-01",
              none⟩, true⟩,
           ⟨⟨"2", "b.txt", "/files/b.txt", 10, "text/plain", "2024-01-01",
              none⟩, false⟩]).processedCount = 2
      ∧ ¬(simulateFileOperation envLabel
          [⟨⟨"1", "a.txt", "/files/a.txt", 10, "text/plain", "2024-01-01",
              none⟩, true⟩,
           ⟨⟨"2", "b.txt", "/files/b.txt", 10, "text/plain", "2024-01-01",
              none⟩, false⟩]).processedCount = 2 - 1
      ∧ simulateFileOperation envLabel
          [⟨⟨"1", "a.txt", "/files/a.txt", 10, "text/plain", "2024-01-01",
              none⟩, true⟩,
           ⟨⟨"2", "b.txt", "/files/b.txt", 10, "text/plain", "2024-01-01",
              none⟩, false⟩]
        = simulateFileOperation envLabel
          [⟨⟨"1", "a.txt", "/files/a.txt", 10, "text/plain", "2024-01-01",
              none⟩, true⟩,
           ⟨⟨"2", "b.txt", "/files/b.txt", 10, "text/plain", "2024-01-01",
              none⟩, true⟩] := by
  refine ⟨rfl, rfl, by decide, rfl⟩

/-- C9 (amended): for every assignment plan, `createPackage` reports
success with all items processed and downloads an archive named
`packageName ++ ".zip"` whose content is the fixed placeholder text
`packageContents` — the content does not depend on the plan's items or
paths. -/
theorem createPackage_placeholder (assignments : List Assignment)
    (packageName : String) (_h : assignments ≠ []) :
    (createPackage assignments packageName).1.success = true
      ∧ (createPackage assignments packageName).1.processedCount
        = assignments.length
      ∧ (createPackage assignments packageName).2
        = some (packageName ++ ".zip", packageContents) := by
  exact ⟨rfl, rfl, rfl⟩

/-- Witness for C9 (amended) at a concrete one-item plan. -/
theorem createPackage_placeholder_witness :
    ([(⟨⟨"1", "doc1.pdf", "/files/doc1.pdf", 10, "application/pdf",
        "2024-01-01", none⟩, "docs/report.pdf"⟩ : Assignment)] ≠ [])
      ∧ (createPackage
          [⟨⟨"1", "doc1.pdf", "/files/doc1.pdf", 10, "application/pdf",
            "2024-01-01", none⟩, "docs/report.pdf"⟩] "pkg").2
        = some ("pkg.zip", packageContents) := by
  refine ⟨by decide, ?_⟩
  exact (createPackage_placeholder
    [⟨⟨"1", "doc1.pdf", "/files/doc1.pdf", 10, "application/pdf",
      "2024-01-01", none⟩, "docs/report.pdf"⟩] "pkg" (by decide)).2.2

/-- C9 (counterexample): two plans with different items and different
target-relative paths produce byte-identical archives — the constant
placeholder text, which does not even contain the planned path
`report.pdf` — so the archive contents are not the planned items stored
under their target-relative paths. -/
theorem createPackage_constant_content_cex :
    (createPackage
        [⟨⟨"1", "doc1.pdf", "/files/doc1.pdf", 10, "application/pdf",
          "2024-01-01", none⟩, "docs/report.pdf"⟩] "pkg").2
      = some ("pkg.zip", packageContents)
      ∧ (createPackage
          [⟨⟨"2", "photo.jpg", "/files/photo.jpg", 20, "image/jpeg",
            "2024-01-01", none⟩, "media/photo.jpg"⟩] "pkg").2
        = (createPackage
          [⟨⟨"1", "doc1.pdf", "/files/doc1.pdf", 10, "application/pdf",
            "2024-01-01", none⟩, "docs/report.pdf"⟩] "pkg").2
      ∧ jsIncludes packageContents "report.pdf" = false := by
  refine ⟨rfl, rfl, by decide⟩

theorem setFileAssigned_getElem? (files : List StagedFile) (j : Nat)
    (t : String) :
    ∀ i, (setFileAssigned files j t)[i]? =
      if i = j then
        (files[i]?).map
          (fun f => { f with
            status := FileStatus.assigned, targetPath := some t })
      else files[i]? := by
  induction files generalizing j with
  | nil => intro i; simp [setFileAssigned]
  | cons f fs ih =>
    intro i
    cases j with
    | zero =>
      cases i with
      | zero => simp [setFileAssigned]
      | succ n => simp [setFileAssigned]
    | succ m =>
      cases i with
      | zero => simp [setFileAssigned]
      | succ n => simpa [setFileAssigned] using ih m n

theorem stagedAt_set (files : List StagedFile) (j : Nat) (t : String)
    (i : Nat) :
    stagedAt (setFileAssigned files j t) i
      = if i = j then false else stagedAt files i := by
  by_cases h : i = j
  · subst h
    cases hf : files[i]? <;>
      simp [stagedAt, setFileAssigned_getElem?, hf]
  · cases hf : files[i]? <;>
      simp [stagedAt, setFileAssigned_getElem?, h, hf]

theorem refOkSlot_set (files : List StagedFile) (j : Nat) (t : String)
    (s : TargetSlot) (h : refOkSlot files s = true) :
    refOkSlot (setFileAssigned files j t) s = true := by
  cases hsa : s.assignedFile with
  | none => simp [refOkSlot, hsa]
  | some a =>
    cases hf : files[a]? with
    | none => simp [refOkSlot, hsa, hf] at h
    | some f =>
      by_cases hij : a = j
      · subst hij
        simp [refOkSlot, hsa, setFileAssigned_getElem?, hf]
      · simp only [refOkSlot, hsa, hf] at h
        simp [refOkSlot, hsa, setFileAssigned_getElem?, hij, hf, h]

theorem refsOk_set (rest : List TargetSlot) (files : List StagedFile)
    (j : Nat) (t : String) (h : refsOk rest files = true) :
    refsOk rest (setFileAssigned files j t) = true := by
  simp only [refsOk, List.all_eq_true] at h ⊢
  intro s hs
  exact refOkSlot_set files j t s (h s hs)

theorem findStagedMatch_spec (needle : String) :
    ∀ (files : List StagedFile) (j : Nat) (f : StagedFile),
      findStagedMatch needle files = some (j, f) →
      files[j]? = some f ∧ f.status = FileStatus.staged := by
  intro files
  induction files with
  | nil => intro j f h; simp [findStagedMatch] at h
  | cons g gs ih =>
    intro j f h
    rw [findStagedMatch] at h
    split at h
    · rename_i hcond
      simp only [Option.some.injEq, Prod.mk.injEq] at h
      obtain ⟨hj, hf⟩ := h
      subst hj
      subst hf
      simp only [Bool.and_eq_true, decide_eq_true_eq] at hcond
      exact ⟨by simp, hcond.1⟩
    · cases hrec : findStagedMatch needle gs with
      | none => rw [hrec] at h; simp at h
      | some p =>
        obtain ⟨j0, f0⟩ := p
        rw [hrec] at h
        simp only [Option.map_some', Option.some.injEq, Prod.mk.injEq] at h
        obtain ⟨hj, hf⟩ := h
        subst hf
        obtain ⟨hget, hstat⟩ := ih j0 f0 hrec
        refine ⟨?_, hstat⟩
        rw [← hj]
        simpa using hget

theorem autoAssign_stagedAt_mono (rand : Nat → ℚ) :
    ∀ (slots : List TargetSlot) (files : List StagedFile) (k i : Nat),
      stagedAt (autoAssignFiles rand slots files k).files i = true →
      stagedAt files i = true := by
  intro slots
  induction slots with
  | nil => intro files k i h; simpa [autoAssignFiles_nil] using h
  | cons slot rest ih =>
    intro files k i h
    by_cases hempty : slot.status = SlotStatus.empty
    · cases hfind : findStagedMatch (extOf slot.path) files with
      | none =>
        rw [autoAssignFiles_cons_none rand slot rest files k hempty hfind] at h
        exact ih files k i h
      | some p =>
        obtain ⟨j, f⟩ := p
        rw [autoAssignFiles_cons_some rand slot rest files k j f hempty
          hfind] at h
        have hset := ih (setFileAssigned files j slot.path) (k + 1) i h
        rw [stagedAt_set] at hset
        by_cases hij : i = j
        · rw [if_pos hij] at hset; exact absurd hset (by simp)
        · rwa [if_neg hij] at hset
    · rw [autoAssignFiles_cons_skip rand slot rest files k hempty] at h
      exact ih files k i h

theorem autoAssign_refOkSlot_mono (rand : Nat → ℚ) :
    ∀ (slots : List TargetSlot) (files : List StagedFile) (k : Nat)
      (s : TargetSlot), refOkSlot files s = true →
      refOkSlot (autoAssignFiles rand slots files k).files s = true := by
  intro slots
  induction slots with
  | nil => intro files k s h; simpa [autoAssignFiles_nil] using h
  | cons slot rest ih =>
    intro files k s h
    by_cases hempty : slot.status = SlotStatus.empty
    · cases hfind : findStagedMatch (extOf slot.path) files with
      | none =>
        rw [autoAssignFiles_cons_none rand slot rest files k hempty hfind]
        exact ih files k s h
      | some p =>
        obtain ⟨j, f⟩ := p
        rw [autoAssignFiles_cons_some rand slot rest files k j f hempty hfind]
        exact ih (setFileAssigned files j slot.path) (k + 1) s
          (refOkSlot_set files j slot.path s h)
    · rw [autoAssignFiles_cons_skip rand slot rest files k hempty]
      exact ih files k s h

theorem autoAssign_mem (rand : Nat → ℚ) :
    ∀ (slots : List TargetSlot) (files : List StagedFile) (k : Nat)
      (t : TargetSlot), t ∈ (autoAssignFiles rand slots files k).slots →
      t ∈ slots ∨ ∃ j, t.assignedFile = some j ∧ stagedAt files j = true := by
  intro slots
  induction slots with
  | nil => intro files k t h; simp [autoAssignFiles_nil] at h
  | cons slot rest ih =>
    intro files k t h
    by_cases hempty : slot.status = SlotStatus.empty
    · cases hfind : findStagedMatch (extOf slot.path) files with
      | none =>
        rw [autoAssignFiles_cons_none rand slot rest files k hempty hfind] at h
        rcases List.mem_cons.mp h with hh | hh
        · exact Or.inl (by simp [hh])
        · rcases ih files k t hh with hcase | hcase
          · exact Or.inl (List.mem_cons_of_mem slot hcase)
          · exact Or.inr hcase
      | some p =>
        obtain ⟨j, f⟩ := p
        rw [autoAssignFiles_cons_some rand slot rest files k j f hempty
          hfind] at h
        obtain ⟨hget, hstat⟩ := findStagedMatch_spec (extOf slot.path) files
          j f hfind
        rcases List.mem_cons.mp h with hh | hh
        · refine Or.inr ⟨j, ?_, ?_⟩
          · rw [hh]
          · simp [stagedAt, hget, hstat]
        · rcases ih (setFileAssigned files j slot.path) (k + 1) t hh with
            hcase | hcase
          · exact Or.inl (List.mem_cons_of_mem slot hcase)
          · obtain ⟨j2, hj2, hstaged2⟩ := hcase
            rw [stagedAt_set] at hstaged2
            by_cases hij : j2 = j
            · rw [if_pos hij] at hstaged2
              exact absurd hstaged2 (by simp)
            · rw [if_neg hij] at hstaged2
              exact Or.inr ⟨j2, hj2, hstaged2⟩
    · rw [autoAssignFiles_cons_skip rand slot rest files k hempty] at h
      rcases List.mem_cons.mp h with hh | hh
      · exact Or.inl (by simp [hh])
      · rcases ih files k t hh with hcase | hcase
        · exact Or.inl (List.mem_cons_of_mem slot hcase)
        · exact Or.inr hcase

theorem refOkSlot_stagedAt_false (files : List StagedFile) (s : TargetSlot)
    (a : Nat) (h : refOkSlot files s = true)
    (hsa : s.assignedFile = some a) : stagedAt files a = false := by
  cases hf : files[a]? with
  | none => simp [stagedAt, hf]
  | some f =>
    simp only [refOkSlot, hsa, hf] at h
    simp [stagedAt, hf]
    simpa using h

theorem noShareB_of_staged (files : List StagedFile) (s t : TargetSlot)
    (j : Nat) (hs : refOkSlot files s = true)
    (htj : t.assignedFile = some j) (hstaged : stagedAt files j = true) :
    noShareB s t = true := by
  cases hsa : s.assignedFile with
  | none => simp [noShareB, hsa]
  | some a =>
    have hfalse := refOkSlot_stagedAt_false files s a hs hsa
    simp only [noShareB, hsa, htj]
    simp only [Option.isNone_some, Bool.false_or, bne_iff_ne, ne_eq,
      Option.some.injEq]
    intro haj
    rw [haj] at hfalse
    rw [hstaged] at hfalse
    exact Bool.noConfusion hfalse

theorem autoAssign_preserves (rand : Nat → ℚ) :
    ∀ (slots : List TargetSlot) (files : List StagedFile) (k : Nat),
      refsOk slots files = true → pairwiseNoShare slots = true →
      pairwiseNoShare (autoAssignFiles rand slots files k).slots = true
        ∧ refsOk (autoAssignFiles rand slots files k).slots
            (autoAssignFiles rand slots files k).files = true := by
  intro slots
  induction slots with
  | nil =>
    intro files k _ _
    exact ⟨rfl, rfl⟩
  | cons slot rest ih =>
    intro files k h2 h1
    rw [refsOk, List.all_cons, Bool.and_eq_true] at h2
    obtain ⟨h2slot, h2rest⟩ := h2
    rw [pairwiseNoShare, Bool.and_eq_true] at h1
    obtain ⟨h1slot, h1rest⟩ := h1
    by_cases hempty : slot.status = SlotStatus.empty
    · cases hfind : findStagedMatch (extOf slot.path) files with
      | none =>
        rw [autoAssignFiles_cons_none rand slot rest files k hempty hfind]
        obtain ⟨hp, hr⟩ := ih files k h2rest h1rest
        constructor
        · rw [pairwiseNoShare, Bool.and_eq_true]
          refine ⟨?_, hp⟩
          rw [List.all_eq_true]
          intro t ht
          rcases autoAssign_mem rand rest files k t ht with hcase | hcase
          · rw [List.all_eq_true] at h1slot
            exact h1slot t hcase
          · obtain ⟨j, htj, hstaged⟩ := hcase
            exact noShareB_of_staged files slot t j h2slot htj hstaged
        · rw [refsOk, List.all_cons, Bool.and_eq_true]
          exact ⟨autoAssign_refOkSlot_mono rand rest files k slot h2slot, hr⟩
      | some p =>
        obtain ⟨j, f⟩ := p
        rw [autoAssignFiles_cons_some rand slot rest files k j f hempty hfind]
        obtain ⟨hget, hstat⟩ :=
          findStagedMatch_spec (extOf slot.path) files j f hfind
        have hstagedj : stagedAt files j = true := by
          simp [stagedAt, hget, hstat]
        have h2rest' : refsOk rest (setFileAssigned files j slot.path) = true :=
          refsOk_set rest files j slot.path h2rest
        obtain ⟨hp, hr⟩ :=
          ih (setFileAssigned files j slot.path) (k + 1) h2rest' h1rest
        have hslotref : refOkSlot (setFileAssigned files j slot.path)
            { slot with
              assignedFile := some j
              status := SlotStatus.autoMatched
              confidence := some (75 + rand k * 20) } = true := by
          simp [refOkSlot, setFileAssigned_getElem?, hget]
        constructor
        · rw [pairwiseNoShare, Bool.and_eq_true]
          refine ⟨?_, hp⟩
          rw [List.all_eq_true]
          intro t ht
          rcases autoAssign_mem rand rest (setFileAssigned files j slot.path)
              (k + 1) t ht with hcase | hcase
          · rw [List.all_eq_true] at h2rest
            have h2t := h2rest t hcase
            cases hta : t.assignedFile with
            | none => simp [noShareB, hta]
            | some a =>
              have hafalse := refOkSlot_stagedAt_false files t a h2t hta
              simp only [noShareB, hta]
              simp only [Option.isNone_some, Bool.false_or, bne_iff_ne,
                ne_eq, Option.some.injEq]
              intro hja
              rw [← hja] at hafalse
              rw [hstagedj] at hafalse
              exact Bool.noConfusion hafalse
          · obtain ⟨j2, htj2, hstaged2⟩ := hcase
            rw [stagedAt_set] at hstaged2
            by_cases hij : j2 = j
            · rw [if_pos hij] at hstaged2
              exact absurd hstaged2 (by simp)
            · simp only [noShareB, htj2]
              simp only [Option.isNone_some, Bool.false_or, bne_iff_ne,
                ne_eq, Option.some.injEq]
              intro hjj2
              exact hij (hjj2.symm)
        · rw [refsOk, List.all_cons, Bool.and_eq_true]
          refine ⟨?_, hr⟩
          exact autoAssign_refOkSlot_mono rand rest
            (setFileAssigned files j slot.path) (k + 1) _ hslotref
    · rw [autoAssignFiles_cons_skip rand slot rest files k hempty]
      obtain ⟨hp, hr⟩ := ih files k h2rest h1rest
      constructor
      · rw [pairwiseNoShare, Bool.and_eq_true]
        refine ⟨?_, hp⟩
        rw [List.all_eq_true]
        intro t ht
        rcases autoAssign_mem rand rest files k t ht with hcase | hcase
        · rw [List.all_eq_true] at h1slot
          exact h1slot t hcase
        · obtain ⟨j, htj, hstaged⟩ := hcase
          exact noShareB_of_staged files slot t j h2slot htj hstaged
      · rw [refsOk, List.all_cons, Bool.and_eq_true]
        exact ⟨autoAssign_refOkSlot_mono rand rest files k slot h2slot, hr⟩

theorem setFileAssigned_map_id (files : List StagedFile) :
    ∀ (j : Nat) (t : String),
      (setFileAssigned files j t).map StagedFile.id
        = files.map StagedFile.id := by
  induction files with
  | nil => intro j t; rfl
  | cons f fs ih =>
    intro j t
    cases j with
    | zero => simp [setFileAssigned]
    | succ m => simp [setFileAssigned, ih]

theorem autoAssign_map_id (rand : Nat → ℚ) :
    ∀ (slots : List TargetSlot) (files : List StagedFile) (k : Nat),
      (autoAssignFiles rand slots files k).files.map StagedFile.id
        = files.map StagedFile.id := by
  intro slots
  induction slots with
  | nil => intro files k; rfl
  | cons slot rest ih =>
    intro files k
    by_cases hempty : slot.status = SlotStatus.empty
    · cases hfind : findStagedMatch (extOf slot.path) files with
      | none =>
        rw [autoAssignFiles_cons_none rand slot rest files k hempty hfind]
        exact ih files k
      | some p =>
        obtain ⟨j, f⟩ := p
        rw [autoAssignFiles_cons_some rand slot rest files k j f hempty hfind]
        rw [ih (setFileAssigned files j slot.path) (k + 1)]
        exact setFileAssigned_map_id files j slot.path
    · rw [autoAssignFiles_cons_skip rand slot rest files k hempty]
      exact ih files k

theorem noShareIdB_of (files : List StagedFile) (s t : TargetSlot)
    (hns : noShareB s t = true) (hs : refOkSlot files s = true)
    (ht : refOkSlot files t = true)
    (hnd : (files.map StagedFile.id).Nodup) :
    noShareIdB files s t = true := by
  cases hsa : s.assignedFile with
  | none => simp [noShareIdB, assignedId, hsa]
  | some a =>
    cases hfa : files[a]? with
    | none => simp [refOkSlot, hsa, hfa] at hs
    | some fa =>
      cases hta : t.assignedFile with
      | none => simp [noShareIdB, assignedId, hsa, hta, hfa]
      | some b =>
        cases hfb : files[b]? with
        | none => simp [refOkSlot, hta, hfb] at ht
        | some fb =>
          have hab : a ≠ b := by
            simp only [noShareB, hsa, hta, Option.isNone_some,
              Bool.false_or, bne_iff_ne, ne_eq, Option.some.injEq] at hns
            exact hns
          simp only [noShareIdB, assignedId, hsa, hta, hfa, hfb,
            Option.isNone_some, Bool.false_or, bne_iff_ne, ne_eq,
            Option.some.injEq]
          intro hid
          have hga : (files.map StagedFile.id)[a]? = some fa.id := by
            rw [List.getElem?_map, hfa]; rfl
          have hgb : (files.map StagedFile.id)[b]? = some fb.id := by
            rw [List.getElem?_map, hfb]; rfl
          have hbound : a < (files.map StagedFile.id).length := by
            have := List.getElem?_eq_some.mp hga
            exact this.1
          have heq : (files.map StagedFile.id)[a]?
              = (files.map StagedFile.id)[b]? := by
            rw [hga, hgb, hid]
          exact hab (List.getElem?_inj hbound hnd heq)

theorem pairwiseNoShareId_of (files : List StagedFile)
    (hnd : (files.map StagedFile.id).Nodup) :
    ∀ slots : List TargetSlot, pairwiseNoShare slots = true →
      refsOk slots files = true → pairwiseNoShareId files slots = true := by
  intro slots
  induction slots with
  | nil => intro _ _; rfl
  | cons s rest ih =>
    intro h1 h2
    rw [pairwiseNoShare, Bool.and_eq_true] at h1
    obtain ⟨h1s, h1rest⟩ := h1
    rw [refsOk, List.all_cons, Bool.and_eq_true] at h2
    obtain ⟨h2s, h2rest⟩ := h2
    rw [pairwiseNoShareId, Bool.and_eq_true]
    refine ⟨?_, ih h1rest h2rest⟩
    rw [List.all_eq_true]
    intro t ht
    rw [List.all_eq_true] at h1s
    have h2t : refOkSlot files t = true := by
      rw [List.all_eq_true] at h2rest
      exact h2rest t ht
    exact noShareIdB_of files s t (h1s t ht) h2s h2t hnd

/-- C4: assignment exclusivity is an invariant of the auto-match pass.  If,
before the pass, no two slots reference the same pool file and every
referenced file is already marked non-`staged` (as the code guarantees,
since linking and marking happen in one step), then after the pass no two
slots reference the same file — and, when the pool's file ids are distinct,
no file id appears as the `assignedFile` of more than one slot.  In
particular a file consumed by one slot inside the pass is never proposed
for a second slot, because consuming it sets its status to `assigned` and
the matcher only accepts `staged` files. -/
theorem autoAssign_exclusivity (rand : Nat → ℚ) (slots : List TargetSlot)
    (files : List StagedFile) (k : Nat)
    (h1 : pairwiseNoShare slots = true)
    (h2 : refsOk slots files = true)
    (h3 : (files.map StagedFile.id).Nodup) :
    pairwiseNoShare (autoAssignFiles rand slots files k).slots = true
      ∧ pairwiseNoShareId (autoAssignFiles rand slots files k).files
          (autoAssignFiles rand slots files k).slots = true := by
  obtain ⟨hp, hr⟩ := autoAssign_preserves rand slots files k h2 h1
  refine ⟨hp, ?_⟩
  refine pairwiseNoShareId_of (autoAssignFiles rand slots files k).files
    ?_ (autoAssignFiles rand slots files k).slots hp hr
  rw [autoAssign_map_id]
  exact h3

/-- Witness for C4: a pass over two empty slots and two staged files (both
matching each slot's extension) satisfies the hypotheses, and the
conclusion then holds for its result — each file ends up in at most one
slot. -/
theorem autoAssign_exclusivity_witness :
    (pairwiseNoShare exclSlots = true ∧ refsOk exclSlots exclFiles = true
        ∧ (exclFiles.map StagedFile.id).Nodup)
      ∧ (pairwiseNoShare
            (autoAssignFiles (fun _ => 0) exclSlots exclFiles 0).slots = true
        ∧ pairwiseNoShareId
            (autoAssignFiles (fun _ => 0) exclSlots exclFiles 0).files
            (autoAssignFiles (fun _ => 0) exclSlots exclFiles 0).slots
          = true) := by
  refine ⟨⟨by decide, by decide, by decide⟩, ?_⟩
  exact autoAssign_exclusivity (fun _ => 0) exclSlots exclFiles 0
    (by decide) (by decide) (by decide)
